import Mathlib

/-!
Verification development for the Alicloud Terraform provider

Shallow embedding of

* `alicloud/data_source_alicloud_mns_topic.go`
  (`dataSourceAlicloudMNSTopicRead`, `mnsTopicDescription`),
* `alicloud/resource_alicloud_disk_attachment_test.go`
  (`testAccCheckDiskAttachmentExists`, `testAccCheckDiskAttachmentDestroy`),
* `alicloud/resource_alicloud_oss_bucket_test.go`
  (`testSweepOSSBuckets`, `testAccCheckOssBucketExistsWithProviders`,
  `testAccCheckOssBucketDestroyWithProvider`).

Calls that leave the program (vendor SDK, Terraform SDK, file system) are
taken as parameters; every call the code makes is recorded in an effect
trace so that statements about which calls are issued can be made.
A Go `panic` (index out of range, nil dereference) is an explicit outcome.
-/

namespace Alicloud

/-! ## MNS topic data source: data model -/

/-- The vendor record `ali_mns.TopicAttribute`, restricted to the fields the
data source reads. -/
structure TopicAttribute where
  TopicName : String
  MaxMessageSize : Int
  LoggingEnabled : Bool
  deriving DecidableEq, Repr

/-- The vendor record `ali_mns.TopicDetails`: one page of a topic listing. -/
structure TopicDetails where
  Attrs : List TopicAttribute
  NextMarker : String
  deriving DecidableEq, Repr

instance : DecidableEq (Except String TopicDetails) := fun a b =>
  match a, b with
  | .ok x, .ok y => if h : x = y then isTrue (by rw [h]) else isFalse (by intro e; cases e; exact h rfl)
  | .error x, .error y =>
    if h : x = y then isTrue (by rw [h]) else isFalse (by intro e; cases e; exact h rfl)
  | .ok _, .error _ => isFalse (by intro e; cases e)
  | .error _, .ok _ => isFalse (by intro e; cases e)

/-- The `map[string]interface{}` built for one topic, with its four keys
`id`, `name`, `maximum_message_size` and `logging_enabled`. -/
structure TopicMapping where
  id : String
  name : String
  maximum_message_size : Int
  logging_enabled : Bool
  deriving DecidableEq, Repr

/-- The part of `schema.ResourceData` the data source touches: the resource id
and the attributes `name_prefix`, `output_file` (optional inputs) and `topics`
(computed). -/
structure ResourceData where
  id : String
  name_prefix : Option String
  output_file : Option String
  topics : List TopicMapping
  deriving DecidableEq, Repr

/-- The method `d.GetOk(key)` on an optional string attribute: the value and
whether it is set to a non-zero value. -/
def ResourceData.GetOk (v : Option String) : String × Bool :=
  match v with
  | none => ("", false)
  | some s => (s, s != "")

/-- The method `d.SetId(v)`. -/
def ResourceData.SetId (d : ResourceData) (v : String) : ResourceData :=
  { d with id := v }

/-- Errors returned by the data source. -/
inductive MnsError where
  /-- The error built by `fmt.Errorf("Get topicDetails error: %#v", err)`. -/
  | getTopicDetails (err : String)
  /-- The error of `d.Set("topics", s)`, returned as it is. -/
  | setTopics (err : String)
  deriving DecidableEq, Repr

/-- Calls that leave the data source, in the order they are made. -/
inductive Effect where
  /-- The call `topicManager.ListTopicDetail(nextMarker, retNumber, prefix)`
  made through `client.WithMnsTopicManager`, with its answer. -/
  | listTopicDetail (nextMarker : String) (retNumber : Nat) (namePrefix : String)
      (answer : Except String TopicDetails)
  /-- The call `dataResourceIdHash(ids)`. -/
  | idHash (ids : List String)
  /-- The call `d.SetId(v)`. -/
  | setId (v : String)
  /-- The call `d.Set("topics", s)`. -/
  | setTopics (s : List TopicMapping)
  /-- The call `writeToFile(path, s)`. -/
  | writeToFile (path : String) (s : List TopicMapping)
  deriving DecidableEq, Repr

/-- The collaborators of `mnsTopicDescription` that live outside the file:
`dataResourceIdHash` and `writeToFile` (helpers of the package) and the
outcome of `d.Set("topics", s)` (Terraform SDK). `setTopicsError d s` is the
error `d.Set` reports for the value `s`, `none` when the value is stored;
`afterRejectedStore d s` is the content of the topics attribute that a
rejected `d.Set` leaves behind; `writeToFile path s` is the error of the file
write, `none` on success. -/
structure MnsEnv where
  dataResourceIdHash : List String → String
  setTopicsError : ResourceData → List TopicMapping → Option String
  afterRejectedStore : ResourceData → List TopicMapping → List TopicMapping
  writeToFile : String → List TopicMapping → Option String

/-- The method `d.Set("topics", s)`: the value is stored when the SDK accepts
it; a rejected value is reported, and the topics attribute then holds what the
SDK leaves behind. -/
def ResourceData.Set (env : MnsEnv) (d : ResourceData) (s : List TopicMapping) :
    ResourceData × Option String :=
  match env.setTopicsError d s with
  | some err => ({ d with topics := env.afterRejectedStore d s }, some err)
  | none => ({ d with topics := s }, none)

/-- The outcome of `mnsTopicDescription`: the resource data after the call, the
returned error (`none` for `nil`) and the calls made. -/
structure DescriptionResult where
  d : ResourceData
  err : Option MnsError
  trace : List Effect
  deriving DecidableEq, Repr

/-- The body of the `for _, item := range topicAttr` loop of
`mnsTopicDescription`: builds the mapping of `item` and appends to `ids` and
`s`. -/
def mnsTopicDescription.step (acc : List String × List TopicMapping)
    (item : TopicAttribute) : List String × List TopicMapping :=
  let mapping : TopicMapping :=
    { id := item.TopicName
      name := item.TopicName
      maximum_message_size := item.MaxMessageSize
      logging_enabled := item.LoggingEnabled }
  (acc.1 ++ [item.TopicName], acc.2 ++ [mapping])

/-- The values of `ids` and `s` when the loop of `mnsTopicDescription` ends. -/
def mnsTopicDescription.collect (topicAttr : List TopicAttribute) :
    List String × List TopicMapping :=
  topicAttr.foldl mnsTopicDescription.step ([], [])

/-- The function `mnsTopicDescription(d, topicAttr)`. -/
def mnsTopicDescription (env : MnsEnv) (d : ResourceData)
    (topicAttr : List TopicAttribute) : DescriptionResult :=
  let acc := mnsTopicDescription.collect topicAttr
  let ids := acc.1
  let s := acc.2
  let hash := env.dataResourceIdHash ids
  let d1 := d.SetId hash
  let t1 := [Effect.idHash ids, Effect.setId hash, Effect.setTopics s]
  match ResourceData.Set env d1 s with
  | (d2, some err) => { d := d2, err := some (MnsError.setTopics err), trace := t1 }
  | (d2, none) =>
    let (output, ok) := ResourceData.GetOk d2.output_file
    if ok && output != "" then
      -- the result of `writeToFile` is dropped
      let _ := env.writeToFile output s
      { d := d2, err := none, trace := t1 ++ [Effect.writeToFile output s] }
    else
      { d := d2, err := none, trace := t1 }

/-! ## MNS topic data source: the paged read -/

/-- The vendor behind `client.WithMnsTopicManager(... ListTopicDetail ...)`: a
state machine answering a request `(nextMarker, retNumber, prefix)` with a
page or an error. -/
abbrev TopicManager (σ : Type) :=
  σ → String → Nat → String → Except String TopicDetails × σ

/-- How far the `for` loop of `dataSourceAlicloudMNSTopicRead` got. -/
inductive LoopOutcome where
  /-- The loop is still running after the allotted number of iterations. -/
  | running
  /-- A list request failed with `err`. -/
  | failed (err : String)
  /-- The loop reached `break`. -/
  | finished
  deriving DecidableEq, Repr

/-- The state of the listing loop: outcome, vendor state, the accumulated
`topicAttr` and the requests issued. -/
structure LoopResult (σ : Type) where
  outcome : LoopOutcome
  vendor : σ
  topicAttr : List TopicAttribute
  trace : List Effect

/-- The `for` loop of `dataSourceAlicloudMNSTopicRead`, run for at most `fuel`
iterations. `var nextMaker string` is declared inside the loop body, so every
iteration starts from the empty marker. -/
def dataSourceAlicloudMNSTopicRead.loop {σ : Type} (list : TopicManager σ)
    (namePrefix : String) :
    Nat → σ → List TopicAttribute → List Effect → LoopResult σ
  | 0, st, topicAttr, trace =>
    { outcome := .running, vendor := st, topicAttr := topicAttr, trace := trace }
  | fuel + 1, st, topicAttr, trace =>
    let nextMaker := ""
    let answer := list st nextMaker 1000 namePrefix
    let trace1 := trace ++ [Effect.listTopicDetail nextMaker 1000 namePrefix answer.1]
    match answer with
    | (.error err, st1) =>
      { outcome := .failed err, vendor := st1, topicAttr := topicAttr, trace := trace1 }
    | (.ok topicDetails, st1) =>
      let topicAttr1 := topicDetails.Attrs.foldl (fun acc attr => acc ++ [attr]) topicAttr
      let nextMaker := topicDetails.NextMarker
      if nextMaker == "" then
        { outcome := .finished, vendor := st1, topicAttr := topicAttr1, trace := trace1 }
      else
        dataSourceAlicloudMNSTopicRead.loop list namePrefix fuel st1 topicAttr1 trace1

/-- The outcome of `dataSourceAlicloudMNSTopicRead`: `returned = none` when the
loop is still running after `fuel` iterations, `some err` when the function
returned `err` (`some none` for `nil`). -/
structure ReadResult (σ : Type) where
  returned : Option (Option MnsError)
  d : ResourceData
  vendor : σ
  trace : List Effect

/-- The value of `namePrefix` in `dataSourceAlicloudMNSTopicRead`: the
attribute `name_prefix` when `GetOk` reports it, the empty string otherwise. -/
def dataSourceAlicloudMNSTopicRead.namePrefix (d : ResourceData) : String :=
  match ResourceData.GetOk (ResourceData.name_prefix d) with
  | (v, true) => v
  | (_, false) => ""

/-- The function `dataSourceAlicloudMNSTopicRead(d, meta)`. -/
def dataSourceAlicloudMNSTopicRead {σ : Type} (env : MnsEnv) (list : TopicManager σ)
    (fuel : Nat) (st : σ) (d : ResourceData) : ReadResult σ :=
  let namePrefix := dataSourceAlicloudMNSTopicRead.namePrefix d
  let r := dataSourceAlicloudMNSTopicRead.loop list namePrefix fuel st [] []
  match r.outcome with
  | .running => { returned := none, d := d, vendor := r.vendor, trace := r.trace }
  | .failed err =>
    { returned := some (some (MnsError.getTopicDetails err)), d := d,
      vendor := r.vendor, trace := r.trace }
  | .finished =>
    let res := mnsTopicDescription env d r.topicAttr
    { returned := some res.err, d := res.d, vendor := r.vendor,
      trace := r.trace ++ res.trace }

/-- The values handed to `d.Set("topics", _)` in a trace, in order. -/
def storedTopics : List Effect → List (List TopicMapping)
  | [] => []
  | Effect.setTopics s :: rest => s :: storedTopics rest
  | _ :: rest => storedTopics rest

/-- The name lists handed to `dataResourceIdHash` in a trace, in order. -/
def hashedNames : List Effect → List (List String)
  | [] => []
  | Effect.idHash ids :: rest => ids :: hashedNames rest
  | _ :: rest => hashedNames rest

/-- The file writes attempted in a trace, in order: path and value. -/
def fileWrites : List Effect → List (String × List TopicMapping)
  | [] => []
  | Effect.writeToFile path s :: rest => (path, s) :: fileWrites rest
  | _ :: rest => fileWrites rest

/-! ## Terraform state, as the acceptance-test checkers see it -/

/-- The record `terraform.InstanceState`: the primary id and the flat
attribute map. -/
structure InstanceState where
  ID : String
  Attributes : List (String × String)
  deriving DecidableEq, Repr

/-- The record `terraform.ResourceState`; `Typ` is its field `Type`. -/
structure ResourceState where
  Typ : String
  Primary : InstanceState
  deriving DecidableEq, Repr

/-- The map `s.RootModule().Resources`, as the list of its entries in the
order a `range` loop visits them (Go leaves that order unspecified). -/
structure State where
  Resources : List (String × ResourceState)
  deriving DecidableEq, Repr

/-- How a checker ends: it returns an error value (`none` for `nil`) or the Go
runtime aborts it with a panic. -/
inductive CheckOutcome (α : Type) where
  | returned (err : Option α)
  | panicked
  deriving DecidableEq, Repr

/-! ## Disk attachment checkers -/

/-- The vendor record `ecs.Disk`, restricted to the fields read here. -/
structure Disk where
  DiskId : String
  Status : String
  deriving DecidableEq, Repr

/-- Modelled from the spec: the constant `COLON_SEPARATED` is declared outside
the files at hand; the spec gives the composite identifier as
`<disk-id>:<instance-id>`, colon-joined. -/
def COLON_SEPARATED : Char := ':'

/-- Splitting a character list at every occurrence of `sep`. -/
def splitChars (sep : Char) : List Char → List (List Char)
  | [] => [[]]
  | c :: cs =>
    if c = sep then [] :: splitChars sep cs
    else
      match splitChars sep cs with
      | [] => [[c]]
      | h :: t => (c :: h) :: t

/-- The library function `strings.Split(s, sep)` for a one-character
separator: the pieces of `s` between the occurrences of `sep`, at least one
piece. -/
def stringsSplit (s : String) (sep : Char) : List String :=
  (splitChars sep s.data).map String.mk

/-- The library function `strings.Contains(s, substr)`. -/
def stringsContains (s substr : String) : Bool :=
  decide (substr.data <:+: s.data)

/-- The collaborators of the disk checkers that live outside the files at
hand: the service call `DescribeDiskById(instanceId, diskId)`, the error
classifier `NotFoundError` and the status constants `Available` and
`DiskInUse`. -/
structure EcsEnv (ε : Type) where
  DescribeDiskById : String → String → Except ε Disk
  NotFoundError : ε → Bool
  Available : String
  DiskInUse : String

/-- Whether the lookup `DescribeDiskById(p.1, p.2)` lets the destroy check go on:
it fails with a not-found error, or returns a disk whose status is
`Available`. -/
def EcsEnv.lookupPasses {ε : Type} (env : EcsEnv ε) (p : String × String) : Bool :=
  match env.DescribeDiskById p.1 p.2 with
  | .error err => env.NotFoundError err
  | .ok disk => disk.Status == env.Available

/-- The outcome of `testAccCheckDiskAttachmentDestroy` together with the
arguments `(instanceId, diskId)` of the `DescribeDiskById` calls it made, in
order. -/
structure DestroyResult where
  outcome : CheckOutcome String
  lookups : List (String × String)
  deriving DecidableEq, Repr

/-- The `for _, rs := range s.RootModule().Resources` loop of
`testAccCheckDiskAttachmentDestroy`. An index outside `split` panics. -/
def testAccCheckDiskAttachmentDestroy.loop {ε : Type} (env : EcsEnv ε) :
    List (String × ResourceState) → List (String × String) → DestroyResult
  | [], lookups => { outcome := .returned none, lookups := lookups }
  | (_, rs) :: rest, lookups =>
    if rs.Typ != "alicloud_disk_attachment" then
      testAccCheckDiskAttachmentDestroy.loop env rest lookups
    else
      let split := stringsSplit rs.Primary.ID COLON_SEPARATED
      match split[1]?, split[0]? with
      | some instanceId, some diskId =>
        let lookups1 := lookups ++ [(instanceId, diskId)]
        match env.DescribeDiskById instanceId diskId with
        | .error err =>
          if env.NotFoundError err then
            testAccCheckDiskAttachmentDestroy.loop env rest lookups1
          else
            { outcome := .returned
                (some ("Describing disk " ++ rs.Primary.ID ++ " got an error."))
              lookups := lookups1 }
        | .ok disk =>
          if disk.Status != env.Available then
            { outcome := .returned (some "Error ECS Disk Attachment still exist")
              lookups := lookups1 }
          else
            testAccCheckDiskAttachmentDestroy.loop env rest lookups1
      | _, _ => { outcome := .panicked, lookups := lookups }

/-- The function `testAccCheckDiskAttachmentDestroy(s)`. -/
def testAccCheckDiskAttachmentDestroy {ε : Type} (env : EcsEnv ε) (s : State) :
    DestroyResult :=
  testAccCheckDiskAttachmentDestroy.loop env s.Resources []

/-- The error carried by a `resource.RetryError` of the attachment check: the
describe error itself, or a message built by `fmt.Errorf`. -/
inductive AttemptError (ε : Type) where
  | describe (err : ε)
  | errorf (msg : String)
  deriving DecidableEq, Repr

/-- The record `resource.RetryError`. -/
structure RetryError (ε : Type) where
  Err : AttemptError ε
  Retryable : Bool
  deriving DecidableEq, Repr

/-- The closure passed to `resource.Retry` by
`testAccCheckDiskAttachmentExists`: one poll attempt. The result is the value
of `*disk` after the attempt and the returned `*resource.RetryError` (`none`
for `nil`). -/
def testAccCheckDiskAttachmentExists.attempt {ε : Type} (env : EcsEnv ε)
    (instanceId : String) (rs : ResourceState) (disk : Disk) :
    Disk × Option (RetryError ε) :=
  let diskIdAttr := (rs.Primary.Attributes.lookup "disk_id").getD ""
  match env.DescribeDiskById instanceId diskIdAttr with
  | .error err => (disk, some { Err := .describe err, Retryable := false })
  | .ok d =>
    if d.Status != env.DiskInUse then
      (disk, some { Err := .errorf "Disk is in attaching - trying again while it attaches"
                    Retryable := true })
    else
      (d, none)

/-! ## OSS bucket checkers -/

/-- The vendor record `oss.BucketInfo`, restricted to the fields read here. -/
structure BucketInfo where
  Name : String
  Location : String
  deriving DecidableEq, Repr

/-- The vendor record `oss.ServiceError`. -/
structure ServiceError where
  Code : String
  Message : String
  deriving DecidableEq, Repr

/-- A Go `error` value by dynamic type: a `*oss.ServiceError`, or a value of any
other type (such as the result of `fmt.Errorf`), told apart by its message. -/
inductive GoError where
  | service (e : ServiceError)
  | other (msg : String)
  deriving DecidableEq, Repr

/-- The pair `(bucket, err)` returned by `QueryOssBucketById`: a pointer that
may be nil and an error that may be nil. -/
structure QueryResult where
  bucket : Option BucketInfo
  err : Option GoError
  deriving DecidableEq, Repr

/-- The record `schema.Provider`, restricted to `Meta()`: the configured client,
nil for a provider that was never configured. -/
structure Provider (κ : Type) where
  Meta : Option κ

/-- The collaborators of the bucket checkers that live outside the files at
hand: the service call `QueryOssBucketById`, the error classifier
`IsExceptedErrors` and the error code constant `OssBucketNotFound`. -/
structure OssEnv (κ : Type) where
  QueryOssBucketById : κ → String → QueryResult
  IsExceptedErrors : Option GoError → List String → Bool
  OssBucketNotFound : String

/-- The outcome of `testAccCheckOssBucketExistsWithProviders` together with the
value of `*b` after the call. -/
structure ExistsResult where
  outcome : CheckOutcome GoError
  b : BucketInfo
  deriving DecidableEq, Repr

/-- The type assertion `e, _ := err.(*oss.ServiceError)`: nil unless `err` holds
a `*oss.ServiceError`. -/
def asServiceError : Option GoError → Option ServiceError
  | some (.service e) => some e
  | _ => none

/-- The `for _, provider := range *providers` loop of
`testAccCheckOssBucketExistsWithProviders`. Reading `e.Code` through a nil `e`
panics. -/
def testAccCheckOssBucketExistsWithProviders.loop {κ : Type} (env : OssEnv κ)
    (id : String) (b : BucketInfo) : List (Provider κ) → ExistsResult
  | [] => { outcome := .returned (some (.other "Bucket not found")), b := b }
  | provider :: rest =>
    match provider.Meta with
    | none => testAccCheckOssBucketExistsWithProviders.loop env id b rest
    | some client =>
      let r := env.QueryOssBucketById client id
      match r.err, r.bucket with
      | none, some bucket => { outcome := .returned none, b := bucket }
      | err, _ =>
        match asServiceError err with
        | none => { outcome := .panicked, b := b }
        | some e =>
          if e.Code == env.OssBucketNotFound then
            testAccCheckOssBucketExistsWithProviders.loop env id b rest
          else if err != none then
            { outcome := .returned err, b := b }
          else
            testAccCheckOssBucketExistsWithProviders.loop env id b rest

/-- The function returned by `testAccCheckOssBucketExistsWithProviders(n, b,
providers)`, applied to the state `s`. -/
def testAccCheckOssBucketExistsWithProviders {κ : Type} (env : OssEnv κ)
    (n : String) (b : BucketInfo) (providers : List (Provider κ)) (s : State) :
    ExistsResult :=
  match s.Resources.lookup n with
  | none => { outcome := .returned (some (.other ("Not found: " ++ n))), b := b }
  | some rs =>
    if rs.Primary.ID == "" then
      { outcome := .returned (some (.other "No ID is set")), b := b }
    else
      testAccCheckOssBucketExistsWithProviders.loop env rs.Primary.ID b providers

/-- The `for _, rs := range s.RootModule().Resources` loop of
`testAccCheckOssBucketDestroyWithProvider`. Reading `bucket.Name` through a nil
`bucket` panics. -/
def testAccCheckOssBucketDestroyWithProvider.loop {κ : Type} (env : OssEnv κ)
    (client : κ) : List (String × ResourceState) → CheckOutcome GoError
  | [] => .returned none
  | (_, rs) :: rest =>
    if rs.Typ != "alicloud_oss_bucket" then
      testAccCheckOssBucketDestroyWithProvider.loop env client rest
    else
      let r := env.QueryOssBucketById client rs.Primary.ID
      let verify : CheckOutcome GoError :=
        if env.IsExceptedErrors r.err [env.OssBucketNotFound] then
          testAccCheckOssBucketDestroyWithProvider.loop env client rest
        else
          .returned r.err
      match r.err, r.bucket with
      | none, none => .panicked
      | none, some bucket =>
        if bucket.Name != "" then
          .returned (some (.other ("Found instance: " ++ bucket.Name)))
        else verify
      | some _, _ => verify

/-- The function `testAccCheckOssBucketDestroyWithProvider(s, provider)`, for a
provider whose `Meta()` is `client`. -/
def testAccCheckOssBucketDestroyWithProvider {κ : Type} (env : OssEnv κ)
    (client : κ) (s : State) : CheckOutcome GoError :=
  testAccCheckOssBucketDestroyWithProvider.loop env client s.Resources

/-! ## OSS bucket sweeper -/

/-- The vendor record `oss.BucketProperties`, restricted to the fields read
here. -/
structure BucketProperties where
  Name : String
  Location : String
  deriving DecidableEq, Repr

/-- The vendor record `oss.ObjectProperties`, restricted to its key. -/
structure ObjectProperties where
  Key : String
  deriving DecidableEq, Repr

/-- The library function `strings.HasPrefix(s, pfx)`. -/
def stringsHasPrefix (s pfx : String) : Bool :=
  pfx.data.isPrefixOf s.data

/-- The name beginnings `testSweepOSSBuckets` sweeps, in the order of its
`prefixes` slice. -/
def testSweepOSSBuckets.sweepPrefixes : List String :=
  ["tf-testacc", "tf-test-", "test-bucket-", "tf-oss-test-", "tf-object-test-",
   "test-acc-alicloud-"]

/-- Calls that leave the sweeper, in the order they are made. -/
inductive SweepCall where
  /-- The call `ossClient.ListBuckets()`. -/
  | listBuckets
  /-- The call `ossClient.Bucket(name)`, with whether it gave a handle. -/
  | bucket (name : String) (ok : Bool)
  /-- The call `bucket.ListObjects()` on the handle of `name`. -/
  | listObjects (name : String)
  /-- The call `bucket.DeleteObject(key)` on the handle of `name`. -/
  | deleteObject (name : String) (key : String)
  /-- The call `ossClient.DeleteBucket(name)`. -/
  | deleteBucket (name : String)
  /-- The call `time.Sleep(5 * time.Second)`. -/
  | sleep (seconds : Nat)
  deriving DecidableEq, Repr

/-- The bucket a call is about, if any. -/
def SweepCall.target : SweepCall → Option String
  | .bucket name _ => some name
  | .listObjects name => some name
  | .deleteObject name _ => some name
  | .deleteBucket name => some name
  | .listBuckets => none
  | .sleep _ => none

/-- The names of the bucket-delete requests of a trace, in order. -/
def deletedBuckets : List SweepCall → List String
  | [] => []
  | .deleteBucket name :: rest => name :: deletedBuckets rest
  | _ :: rest => deletedBuckets rest

/-- Errors returned by the sweeper. -/
inductive SweepError where
  /-- The error built by `fmt.Errorf("error getting Alicloud client: %s", err)`. -/
  | gettingClient (err : String)
  /-- The error built by `fmt.Errorf("Error retrieving OSS buckets: %s", err)`. -/
  | retrievingBuckets (err : String)
  /-- The error built by `fmt.Errorf("Error getting bucket (%s): %#v", name, err)`. -/
  | gettingBucket (name : String) (err : String)
  deriving DecidableEq, Repr

/-- The collaborators of the sweeper that live outside the file: the library
function `strings.ToLower`, the helper `sharedClientForRegion` (its client is
the vendor state `σ`) and the OSS calls made through `client.WithOssClient`
and the bucket handle. Each call answers and moves the vendor state on; an
answer `none` of a delete is success. -/
structure SweepEnv (σ : Type) where
  ToLower : String → String
  sharedClientForRegion : String → Except String σ
  ListBuckets : σ → Except String (List BucketProperties) × σ
  Bucket : σ → String → Except String Unit × σ
  ListObjects : σ → String → Except String (List ObjectProperties) × σ
  DeleteObject : σ → String → String → Option String × σ
  DeleteBucket : σ → String → Option String × σ

/-- Whether the lower-cased `name` starts with one of the six lower-cased name
beginnings. -/
def SweepEnv.matchesSweep {σ : Type} (env : SweepEnv σ) (name : String) : Bool :=
  testSweepOSSBuckets.sweepPrefixes.any
    (fun pfx => stringsHasPrefix (env.ToLower name) (env.ToLower pfx))

/-- The inner loop `for _, prefix := range prefixes` of `testSweepOSSBuckets`:
the value of `skip` when the loop ends, starting from `skip := true`. -/
def testSweepOSSBuckets.skip {σ : Type} (env : SweepEnv σ) (name : String) :
    List String → Bool
  | [] => true
  | pfx :: rest =>
    if stringsHasPrefix (env.ToLower name) (env.ToLower pfx) then false
    else testSweepOSSBuckets.skip env name rest

/-- The loop `for _, o := range objects.Objects` of `testSweepOSSBuckets`: one
`DeleteObject` per object, a failed delete being logged only. -/
def testSweepOSSBuckets.deleteObjects {σ : Type} (env : SweepEnv σ) (name : String) :
    List ObjectProperties → σ → σ × List SweepCall
  | [], st => (st, [])
  | o :: rest, st =>
    let (_, st1) := env.DeleteObject st name o.Key
    let (st2, calls) := testSweepOSSBuckets.deleteObjects env name rest st1
    (st2, SweepCall.deleteObject name o.Key :: calls)

/-- The statement `if objects, err := bucket.ListObjects(); err != nil ... else if
len(objects.Objects) > 0 ...` of `testSweepOSSBuckets`: a failed listing is
logged only, a non-empty listing has its objects deleted. The result is the
vendor state and the object deletions requested. -/
def testSweepOSSBuckets.clearObjects {σ : Type} (env : SweepEnv σ) (name : String)
    (st : σ) : σ × List SweepCall :=
  match env.ListObjects st name with
  | (.error _, st2) => (st2, [])
  | (.ok objects, st2) =>
    if objects.length > 0 then
      testSweepOSSBuckets.deleteObjects env name objects st2
    else (st2, [])

/-- The outcome of the bucket loop of the sweeper: the error it returned with, if
any, the value of `sweeped`, the vendor state and the calls made. -/
structure SweepLoopResult (σ : Type) where
  err : Option SweepError
  sweeped : Bool
  vendor : σ
  trace : List SweepCall

/-- The loop `for _, v := range resp.Buckets` of `testSweepOSSBuckets`. -/
def testSweepOSSBuckets.loop {σ : Type} (env : SweepEnv σ) :
    List BucketProperties → σ → Bool → SweepLoopResult σ
  | [], st, sweeped => { err := none, sweeped := sweeped, vendor := st, trace := [] }
  | v :: rest, st, sweeped =>
    let name := v.Name
    let skip := testSweepOSSBuckets.skip env name testSweepOSSBuckets.sweepPrefixes
    if skip then
      testSweepOSSBuckets.loop env rest st sweeped
    else
      match env.Bucket st name with
      | (.error err, st1) =>
        { err := some (SweepError.gettingBucket name err), sweeped := true, vendor := st1
          trace := [SweepCall.bucket name false] }
      | (.ok _, st1) =>
        let cleared := testSweepOSSBuckets.clearObjects env name st1
        -- a failed `DeleteBucket` is logged only
        let deleted := env.DeleteBucket cleared.1 name
        let r := testSweepOSSBuckets.loop env rest deleted.2 true
        { r with
          trace := [SweepCall.bucket name true, SweepCall.listObjects name] ++ cleared.2
            ++ [SweepCall.deleteBucket name] ++ r.trace }

/-- The outcome of `testSweepOSSBuckets`: the returned error (`none` for `nil`)
and the calls made. -/
structure SweepResult where
  err : Option SweepError
  trace : List SweepCall
  deriving DecidableEq, Repr

/-- The function `testSweepOSSBuckets(region)`. -/
def testSweepOSSBuckets {σ : Type} (env : SweepEnv σ) (region : String) : SweepResult :=
  match env.sharedClientForRegion region with
  | .error err => { err := some (SweepError.gettingClient err), trace := [] }
  | .ok client =>
    match env.ListBuckets client with
    | (.error err, _) =>
      { err := some (SweepError.retrievingBuckets err), trace := [SweepCall.listBuckets] }
    | (.ok resp, st) =>
      let r := testSweepOSSBuckets.loop env resp st false
      match r.err with
      | some e => { err := some e, trace := SweepCall.listBuckets :: r.trace }
      | none =>
        if r.sweeped then
          { err := none, trace := SweepCall.listBuckets :: r.trace ++ [SweepCall.sleep 5] }
        else
          { err := none, trace := SweepCall.listBuckets :: r.trace }

/-! ## Concrete inputs used by the evaluations below -/

/-- An environment whose `d.Set` accepts every value; the id hash joins the
names, each followed by a dash. -/
def acceptingEnv : MnsEnv where
  dataResourceIdHash := fun ids => String.join (ids.map (fun id => id ++ "-"))
  setTopicsError := fun _ _ => none
  afterRejectedStore := fun _ _ => []
  writeToFile := fun _ _ => some "permission denied"

/-- Resource data of a data source asking for the topics named `test-...`. -/
def sampleData : ResourceData where
  id := "previous-id"
  name_prefix := some "test-"
  output_file := some "topics.json"
  topics := []

/-- The first page of a two-page listing. -/
def pageOne : TopicDetails where
  Attrs := [{ TopicName := "test-a", MaxMessageSize := 65536, LoggingEnabled := false }]
  NextMarker := "marker-1"

/-- The second and last page of a two-page listing. -/
def pageTwo : TopicDetails where
  Attrs := [{ TopicName := "test-b", MaxMessageSize := 1024, LoggingEnabled := true }]
  NextMarker := ""

/-- A vendor whose listing is the chain `pageOne`, `pageTwo`: the empty marker
gives `pageOne`, the marker of `pageOne` gives `pageTwo`. -/
def twoPageManager : TopicManager Unit := fun st marker _ _ =>
  if marker = "" then (.ok pageOne, st)
  else if marker = "marker-1" then (.ok pageTwo, st)
  else (.error "InvalidMarker", st)

/-- A vendor that answers its first request with `pageOne` and every later
request with an error. -/
def flakyManager : TopicManager Nat := fun n _ _ _ =>
  if n = 0 then (.ok pageOne, 1) else (.error "RequestTimeout", n + 1)

/-- An ECS service in which every disk exists with the given status. -/
def ecsWithStatus (status : String) : EcsEnv String where
  DescribeDiskById := fun _ diskId => .ok { DiskId := diskId, Status := status }
  NotFoundError := fun err => err == "InvalidDiskId.NotFound"
  Available := "Available"
  DiskInUse := "In_use"

/-- An ECS service whose every lookup fails with the given error. -/
def ecsFailing (err : String) : EcsEnv String where
  DescribeDiskById := fun _ _ => .error err
  NotFoundError := fun err => err == "InvalidDiskId.NotFound"
  Available := "Available"
  DiskInUse := "In_use"

/-- An OSS service answering by bucket id: `tf-testacc-gone` does not exist,
`tf-testacc-blank` is reported without a name, `tf-testacc-down` cannot be
reached and every other bucket exists. `IsExceptedErrors` accepts a service
error whose code is listed. -/
def ossById : OssEnv Nat where
  QueryOssBucketById := fun _ id =>
    if id = "tf-testacc-gone" then
      { bucket := none, err := some (.service { Code := "NoSuchBucket", Message := "" }) }
    else if id = "tf-testacc-blank" then
      { bucket := some { Name := "", Location := "" }, err := none }
    else if id = "tf-testacc-down" then
      { bucket := none, err := some (.other "dial tcp: i/o timeout") }
    else
      { bucket := some { Name := id, Location := "oss-cn-beijing" }, err := none }
  IsExceptedErrors := fun err codes =>
    match err with
    | some (.service e) => codes.contains e.Code
    | _ => false
  OssBucketNotFound := "NoSuchBucket"

/-- An OSS service whose lookup returns neither a bucket nor an error. -/
def ossVoid : OssEnv Nat where
  QueryOssBucketById := fun _ _ => { bucket := none, err := none }
  IsExceptedErrors := fun err codes =>
    match err with
    | some (.service e) => codes.contains e.Code
    | _ => false
  OssBucketNotFound := "NoSuchBucket"

/-- A state with the single bucket resource `alicloud_oss_bucket.basic` of the
given id. -/
def bucketState (id : String) : State where
  Resources :=
    [("alicloud_oss_bucket.basic",
        { Typ := "alicloud_oss_bucket", Primary := { ID := id, Attributes := [] } })]

/-- A state with a bucket that is gone and a bucket that still exists. -/
def twoBucketState : State where
  Resources :=
    [("alicloud_oss_bucket.gone",
        { Typ := "alicloud_oss_bucket"
          Primary := { ID := "tf-testacc-gone", Attributes := [] } }),
     ("alicloud_oss_bucket.basic",
        { Typ := "alicloud_oss_bucket"
          Primary := { ID := "tf-testacc-basic", Attributes := [] } })]

/-- An OSS account with three buckets, two of them test leftovers; every
bucket holds the object `data.bin`, and every delete fails. -/
def sweepAccount : SweepEnv Unit where
  ToLower := fun str => String.mk (str.data.map Char.toLower)
  sharedClientForRegion := fun _ => .ok ()
  ListBuckets := fun st =>
    (.ok [{ Name := "tf-testacc-bucket-basic-1", Location := "oss-cn-beijing" },
          { Name := "production-data", Location := "oss-cn-beijing" },
          { Name := "TF-Test-upper", Location := "oss-cn-beijing" }], st)
  Bucket := fun st _ => (.ok (), st)
  ListObjects := fun st _ => (.ok [{ Key := "data.bin" }], st)
  DeleteObject := fun st _ _ => (some "AccessDenied", st)
  DeleteBucket := fun st _ => (some "BucketNotEmpty", st)

/-- A state whose attachment resource has an id without separator. -/
def bareIdState : State where
  Resources :=
    [("alicloud_disk_attachment.disk-att",
        { Typ := "alicloud_disk_attachment"
          Primary := { ID := "d-bp1", Attributes := [("disk_id", "d-bp1")] } })]

/-- A state holding an instance and the attachment of disk `d-bp1` to instance
`i-bp2`. -/
def attachmentState : State where
  Resources :=
    [("alicloud_instance.instance",
        { Typ := "alicloud_instance", Primary := { ID := "i-bp2", Attributes := [] } }),
     ("alicloud_disk_attachment.disk-att",
        { Typ := "alicloud_disk_attachment"
          Primary := { ID := "d-bp1:i-bp2"
                       Attributes := [("disk_id", "d-bp1"), ("instance_id", "i-bp2")] } })]

end Alicloud

namespace Alicloud

/-! ## Paged read -/

/-- The inner `append` loop adds the page's attributes at the end. -/
theorem foldl_append_singleton {α : Type} (xs acc : List α) :
    xs.foldl (fun acc x => acc ++ [x]) acc = acc ++ xs := by
  induction xs generalizing acc with
  | nil => simp
  | cons x xs ih => simp [ih]

/-- When the vendor answers the empty marker with a page whose marker is not
empty, the loop asks for that page again in every iteration and never leaves. -/
theorem loop_repeats_first_page {σ : Type} (list : TopicManager σ) (p : String)
    (page : TopicDetails) (hlist : ∀ st, (list st "" 1000 p).1 = .ok page)
    (hm : page.NextMarker ≠ "") (fuel : Nat) :
    ∀ st acc tr,
      (dataSourceAlicloudMNSTopicRead.loop list p fuel st acc tr).outcome = .running ∧
      (dataSourceAlicloudMNSTopicRead.loop list p fuel st acc tr).trace =
        tr ++ List.replicate fuel (Effect.listTopicDetail "" 1000 p (.ok page)) := by
  induction fuel with
  | zero => intro st acc tr; simp [dataSourceAlicloudMNSTopicRead.loop]
  | succ n ih =>
    intro st acc tr
    have h := hlist st
    rcases hres : list st "" 1000 p with ⟨ans, st1⟩
    rw [hres] at h
    simp only at h
    subst h
    simp only [dataSourceAlicloudMNSTopicRead.loop, hres]
    have hm2 : (page.NextMarker == "") = false := by simpa using hm
    simp only [hm2]
    obtain ⟨h1, h2⟩ := ih st1 (page.Attrs.foldl (fun acc attr => acc ++ [attr]) acc)
      (tr ++ [Effect.listTopicDetail "" 1000 p (.ok page)])
    refine ⟨by simpa using h1, ?_⟩
    simp only [Bool.false_eq_true, if_false]
    rw [h2, List.replicate_succ]
    simp

/-- C1, evaluated on the two-page chain `pageOne`, `pageTwo`: whatever number of
iterations is allowed, `dataSourceAlicloudMNSTopicRead` has not returned, and
every request it issued carried the empty marker and was answered with
`pageOne`; the marker of `pageOne` is never sent and `pageTwo` never fetched. -/
theorem read_two_pages_never_returns (env : MnsEnv) (d : ResourceData) (fuel : Nat) :
    (dataSourceAlicloudMNSTopicRead env twoPageManager fuel () d).returned = none ∧
    (dataSourceAlicloudMNSTopicRead env twoPageManager fuel () d).trace =
      List.replicate fuel
        (Effect.listTopicDetail "" 1000 (dataSourceAlicloudMNSTopicRead.namePrefix d)
          (.ok pageOne)) := by
  have h := loop_repeats_first_page twoPageManager
    (dataSourceAlicloudMNSTopicRead.namePrefix d) pageOne
    (by intro st; simp [twoPageManager]) (by decide) fuel () [] []
  obtain ⟨h1, h2⟩ := h
  simp only [dataSourceAlicloudMNSTopicRead, h1]
  simpa using h2

/-! ## Topic description -/

/-- The loop of `mnsTopicDescription` from any starting accumulators. -/
theorem foldl_step_eq (L : List TopicAttribute) (acc : List String × List TopicMapping) :
    L.foldl mnsTopicDescription.step acc =
      (acc.1 ++ L.map (fun item => item.TopicName),
       acc.2 ++ L.map (fun item =>
          ({ id := item.TopicName, name := item.TopicName,
             maximum_message_size := item.MaxMessageSize,
             logging_enabled := item.LoggingEnabled } : TopicMapping))) := by
  induction L generalizing acc with
  | nil => simp
  | cons x xs ih => simp [ih, mnsTopicDescription.step]

/-- The loop of `mnsTopicDescription` maps the topics one by one, in order. -/
theorem collect_eq (L : List TopicAttribute) :
    mnsTopicDescription.collect L =
      (L.map (fun item => item.TopicName),
       L.map (fun item =>
          ({ id := item.TopicName, name := item.TopicName,
             maximum_message_size := item.MaxMessageSize,
             logging_enabled := item.LoggingEnabled } : TopicMapping))) := by
  simp [mnsTopicDescription.collect, foldl_step_eq]

/-- The trace of `mnsTopicDescription` holds no list request. -/
theorem description_trace_no_list (env : MnsEnv) (d : ResourceData)
    (L : List TopicAttribute) (ev : Effect)
    (hev : ev ∈ (mnsTopicDescription env d L).trace) :
    ∀ m n q a, ev ≠ Effect.listTopicDetail m n q a := by
  intro m n q a heq
  subst heq
  unfold mnsTopicDescription at hev
  simp only [ResourceData.Set] at hev
  split at hev
  · simp at hev
  · split at hev <;> simp at hev

/-- The error path of `mnsTopicDescription`: should `d.Set` reject the value with
`e`, the function returns `e` after the id has been replaced by the hash of the
topic names; the id is written before the store and not restored. -/
theorem mnsTopicDescription_rejected_store (env : MnsEnv) (d : ResourceData)
    (L : List TopicAttribute) (e : String)
    (hrej : env.setTopicsError
      (d.SetId (env.dataResourceIdHash (mnsTopicDescription.collect L).1))
      (mnsTopicDescription.collect L).2 = some e) :
    (mnsTopicDescription env d L).err = some (MnsError.setTopics e) ∧
      (mnsTopicDescription env d L).d.id =
        env.dataResourceIdHash (mnsTopicDescription.collect L).1 := by
  unfold mnsTopicDescription
  simp only [ResourceData.Set, hrej]
  simp [ResourceData.SetId]

/-- The requests of the listing loop: every one carries the empty marker; all
are answered with a page, except that a loop ending in failure has the failed
request last. -/
theorem loop_trace_shape {σ : Type} (list : TopicManager σ) (p : String) (fuel : Nat) :
    ∀ st acc tr, ∃ pages : List TopicDetails,
      ((dataSourceAlicloudMNSTopicRead.loop list p fuel st acc tr).outcome ≠ .running →
        (dataSourceAlicloudMNSTopicRead.loop list p fuel st acc tr).outcome ≠ .finished →
        ∃ e, (dataSourceAlicloudMNSTopicRead.loop list p fuel st acc tr).outcome = .failed e ∧
          (dataSourceAlicloudMNSTopicRead.loop list p fuel st acc tr).trace =
            tr ++ pages.map (fun pg => Effect.listTopicDetail "" 1000 p (.ok pg)) ++
              [Effect.listTopicDetail "" 1000 p (.error e)]) ∧
      (((dataSourceAlicloudMNSTopicRead.loop list p fuel st acc tr).outcome = .running ∨
        (dataSourceAlicloudMNSTopicRead.loop list p fuel st acc tr).outcome = .finished) →
          (dataSourceAlicloudMNSTopicRead.loop list p fuel st acc tr).trace =
            tr ++ pages.map (fun pg => Effect.listTopicDetail "" 1000 p (.ok pg))) := by
  induction fuel with
  | zero =>
    intro st acc tr
    exact ⟨[], by simp [dataSourceAlicloudMNSTopicRead.loop]⟩
  | succ n ih =>
    intro st acc tr
    rcases hres : list st "" 1000 p with ⟨ans, st1⟩
    cases ans with
    | error e =>
      refine ⟨[], ?_⟩
      simp [dataSourceAlicloudMNSTopicRead.loop, hres]
    | ok page =>
      by_cases hm : page.NextMarker = ""
      · refine ⟨[page], ?_⟩
        simp [dataSourceAlicloudMNSTopicRead.loop, hres, hm]
      · obtain ⟨pages, h1, h2⟩ := ih st1
          (page.Attrs.foldl (fun acc attr => acc ++ [attr]) acc)
          (tr ++ [Effect.listTopicDetail "" 1000 p (.ok page)])
        refine ⟨page :: pages, ?_⟩
        have hm2 : (page.NextMarker == "") = false := by simpa using hm
        simp only [dataSourceAlicloudMNSTopicRead.loop, hres, hm2, Bool.false_eq_true,
          if_false]
        constructor
        · intro hr hf
          obtain ⟨e, he1, he2⟩ := h1 hr hf
          exact ⟨e, he1, by rw [he2]; simp⟩
        · intro h
          rw [h2 h]; simp

/-- C3: when a list request issued by `dataSourceAlicloudMNSTopicRead` is answered
with an error `e` (the event at position `i` of the trace), the read returns
the error built from `e`, that request is the last call of the run (no further
list request, no call made by `mnsTopicDescription`), and the resource data is
what it was before the call, whatever the vendor answered before. -/
theorem read_list_error_returns_at_once {σ : Type} (env : MnsEnv)
    (list : TopicManager σ) (fuel : Nat) (st : σ) (d : ResourceData)
    (i : Nat) (m : String) (n : Nat) (q : String) (e : String)
    (herr : (dataSourceAlicloudMNSTopicRead env list fuel st d).trace[i]? =
      some (Effect.listTopicDetail m n q (.error e))) :
    (dataSourceAlicloudMNSTopicRead env list fuel st d).returned =
        some (some (MnsError.getTopicDetails e)) ∧
      (dataSourceAlicloudMNSTopicRead env list fuel st d).trace.length = i + 1 ∧
      (dataSourceAlicloudMNSTopicRead env list fuel st d).d = d := by
  obtain ⟨pages, h1, h2⟩ := loop_trace_shape list
    (dataSourceAlicloudMNSTopicRead.namePrefix d) fuel st [] []
  have hpages : ∀ ev ∈ pages.map (fun pg => Effect.listTopicDetail "" 1000
      (dataSourceAlicloudMNSTopicRead.namePrefix d) (.ok pg)),
      ev ≠ Effect.listTopicDetail m n q (.error e) := by
    intro ev hev
    simp only [List.mem_map] at hev
    obtain ⟨pg, _, rfl⟩ := hev
    simp
  unfold dataSourceAlicloudMNSTopicRead at herr ⊢
  simp only at herr ⊢
  cases hout : (dataSourceAlicloudMNSTopicRead.loop list
      (dataSourceAlicloudMNSTopicRead.namePrefix d) fuel st [] []).outcome with
  | running =>
    exfalso
    rw [hout] at herr
    simp only at herr
    rw [h2 (Or.inl hout)] at herr
    have hmem := List.getElem?_mem herr
    simp only [List.nil_append] at hmem
    exact hpages _ hmem rfl
  | finished =>
    exfalso
    rw [hout] at herr
    simp only at herr
    rw [h2 (Or.inr hout)] at herr
    have hmem := List.getElem?_mem herr
    simp only [List.nil_append, List.mem_append] at hmem
    rcases hmem with hmem | hmem
    · exact hpages _ hmem rfl
    · exact description_trace_no_list env d _ _ hmem m n q _ rfl
  | failed e1 =>
    rw [hout] at herr
    simp only at herr ⊢
    obtain ⟨e2, he1, he2⟩ := h1 (by rw [hout]; simp) (by rw [hout]; simp)
    rw [hout] at he1
    cases he1
    rw [he2] at herr ⊢
    simp only [List.nil_append] at herr ⊢
    have hlt : ¬ i < (pages.map (fun pg => Effect.listTopicDetail "" 1000
        (dataSourceAlicloudMNSTopicRead.namePrefix d) (.ok pg))).length := by
      intro hlt
      rw [List.getElem?_append_left hlt] at herr
      exact hpages _ (List.getElem?_mem herr) rfl
    rw [List.getElem?_append_right (Nat.le_of_not_lt hlt)] at herr
    have hi : i - (pages.map (fun pg => Effect.listTopicDetail "" 1000
        (dataSourceAlicloudMNSTopicRead.namePrefix d) (.ok pg))).length = 0 := by
      by_contra hne
      obtain ⟨k, hk⟩ := Nat.exists_eq_succ_of_ne_zero hne
      rw [hk] at herr
      simp at herr
    rw [hi] at herr
    simp only [List.getElem?_cons_zero, Option.some.injEq, Effect.listTopicDetail.injEq,
      Except.error.injEq] at herr
    obtain ⟨_, _, _, hee⟩ := herr
    subst hee
    refine ⟨by trivial, ?_, by trivial⟩
    simp only [List.length_append, List.length_singleton]
    omega

/-- C3 applied to a vendor that answers the first request with a page and the
second with an error: the failed request is the second and last call. -/
theorem read_list_error_returns_at_once_witness :
    (dataSourceAlicloudMNSTopicRead acceptingEnv flakyManager 5 0 sampleData).trace[1]? =
        some (Effect.listTopicDetail "" 1000 "test-" (.error "RequestTimeout")) ∧
      ((dataSourceAlicloudMNSTopicRead acceptingEnv flakyManager 5 0 sampleData).returned =
          some (some (MnsError.getTopicDetails "RequestTimeout")) ∧
        (dataSourceAlicloudMNSTopicRead acceptingEnv flakyManager 5 0 sampleData).trace.length
          = 1 + 1 ∧
        (dataSourceAlicloudMNSTopicRead acceptingEnv flakyManager 5 0 sampleData).d
          = sampleData) :=
  have h : (dataSourceAlicloudMNSTopicRead acceptingEnv flakyManager 5 0 sampleData).trace[1]? =
      some (Effect.listTopicDetail "" 1000 "test-" (.error "RequestTimeout")) := by
    simp [dataSourceAlicloudMNSTopicRead, dataSourceAlicloudMNSTopicRead.loop,
      dataSourceAlicloudMNSTopicRead.namePrefix, ResourceData.GetOk, flakyManager,
      sampleData, pageOne]
  ⟨h, read_list_error_returns_at_once acceptingEnv flakyManager 5 0 sampleData 1 ""
    1000 "test-" "RequestTimeout" h⟩

/-- C4: when `d.Set("topics", s)` accepts the value, `mnsTopicDescription` returns
nil for every behaviour of `writeToFile` (`env` is arbitrary, a failing write
included); `writeToFile` is called once, with the path of `output_file` and the
value now stored in the topics attribute, when `output_file` is set to a
non-empty string, and not at all otherwise. -/
theorem mnsTopicDescription_file_write (env : MnsEnv) (d : ResourceData)
    (L : List TopicAttribute)
    (hset : env.setTopicsError
      (d.SetId (env.dataResourceIdHash (mnsTopicDescription.collect L).1))
      (mnsTopicDescription.collect L).2 = none) :
    (mnsTopicDescription env d L).err = none ∧
      storedTopics (mnsTopicDescription env d L).trace =
        [(mnsTopicDescription env d L).d.topics] ∧
      fileWrites (mnsTopicDescription env d L).trace =
        (match ResourceData.output_file d with
         | some path =>
           if path = "" then [] else [(path, (mnsTopicDescription env d L).d.topics)]
         | none => []) := by
  unfold mnsTopicDescription
  simp only [ResourceData.Set, hset]
  cases hout : ResourceData.output_file d with
  | none =>
    simp [ResourceData.GetOk, ResourceData.SetId, hout, storedTopics, fileWrites]
  | some path =>
    by_cases hp : path = ""
    · simp [ResourceData.GetOk, ResourceData.SetId, hout, storedTopics, fileWrites, hp]
    · simp [ResourceData.GetOk, ResourceData.SetId, hout, storedTopics, fileWrites, hp]

/-- C4 applied to an environment whose file write fails: the description still
returns nil and the write was attempted once with the stored value. -/
theorem mnsTopicDescription_file_write_witness :
    acceptingEnv.setTopicsError
        (sampleData.SetId
          (acceptingEnv.dataResourceIdHash (mnsTopicDescription.collect pageOne.Attrs).1))
        (mnsTopicDescription.collect pageOne.Attrs).2 = none ∧
      acceptingEnv.writeToFile "topics.json"
        (mnsTopicDescription acceptingEnv sampleData pageOne.Attrs).d.topics =
        some "permission denied" ∧
      ((mnsTopicDescription acceptingEnv sampleData pageOne.Attrs).err = none ∧
        storedTopics (mnsTopicDescription acceptingEnv sampleData pageOne.Attrs).trace =
          [(mnsTopicDescription acceptingEnv sampleData pageOne.Attrs).d.topics] ∧
        fileWrites (mnsTopicDescription acceptingEnv sampleData pageOne.Attrs).trace =
          (match ResourceData.output_file sampleData with
           | some path =>
             if path = "" then []
             else [(path, (mnsTopicDescription acceptingEnv sampleData pageOne.Attrs).d.topics)]
           | none => [])) :=
  ⟨rfl, rfl, mnsTopicDescription_file_write acceptingEnv sampleData pageOne.Attrs rfl⟩

/-- C5: for every list `L` of topic attributes, `mnsTopicDescription` hands
`d.Set("topics", _)` one value `s` with as many entries as `L`, whose `i`-th
entry has `id` and `name` equal to the `i`-th topic name, the same
`maximum_message_size` integer and the same `logging_enabled` flag; and it
hands `dataResourceIdHash` the topic names of `L` in order. -/
theorem mnsTopicDescription_maps_topics (env : MnsEnv) (d : ResourceData)
    (L : List TopicAttribute) :
    ∃ s : List TopicMapping,
      storedTopics (mnsTopicDescription env d L).trace = [s] ∧
      s.length = L.length ∧
      (∀ (i : Nat) (hs : i < s.length) (hL : i < L.length),
        s[i].id = L[i].TopicName ∧ s[i].name = L[i].TopicName ∧
        s[i].maximum_message_size = L[i].MaxMessageSize ∧
        s[i].logging_enabled = L[i].LoggingEnabled) ∧
      hashedNames (mnsTopicDescription env d L).trace =
        [L.map (fun item => item.TopicName)] := by
  refine ⟨(mnsTopicDescription.collect L).2, ?_, ?_, ?_, ?_⟩
  · unfold mnsTopicDescription
    simp only [ResourceData.Set]
    split
    · simp [storedTopics]
    · split <;> simp [storedTopics]
  · simp [collect_eq]
  · intro i hs hL
    simp [collect_eq]
  · unfold mnsTopicDescription
    simp only [ResourceData.Set, collect_eq]
    split
    · simp [hashedNames]
    · split <;> simp [hashedNames]

/-! ## Disk attachment checkers -/

/-- Splitting never gives an empty list of pieces. -/
theorem splitChars_ne_nil (sep : Char) (l : List Char) : splitChars sep l ≠ [] := by
  cases l with
  | nil => simp [splitChars]
  | cons c cs =>
    simp only [splitChars]
    split
    · simp
    · split <;> simp

/-- A list without the separator is its own single piece. -/
theorem splitChars_of_not_mem (sep : Char) (l : List Char) (h : sep ∉ l) :
    splitChars sep l = [l] := by
  induction l with
  | nil => simp [splitChars]
  | cons c cs ih =>
    simp only [List.mem_cons, not_or] at h
    have hc : c ≠ sep := fun e => h.1 e.symm
    simp [splitChars, hc, ih h.2]

/-- The first piece ends at the first separator. -/
theorem splitChars_append (sep : Char) (a rest : List Char) (h : sep ∉ a) :
    splitChars sep (a ++ sep :: rest) = a :: splitChars sep rest := by
  induction a with
  | nil => simp [splitChars]
  | cons c cs ih =>
    simp only [List.mem_cons, not_or] at h
    have hc : c ≠ sep := fun e => h.1 e.symm
    simp [splitChars, hc, ih h.2]

/-- An identifier `<disk-id>:<instance-id>` splits into its two parts. -/
theorem stringsSplit_pair (a b : String) (ha : ':' ∉ a.data) (hb : ':' ∉ b.data) :
    stringsSplit (a ++ ":" ++ b) COLON_SEPARATED = [a, b] := by
  have hdata : (a ++ ":" ++ b).data = a.data ++ ':' :: b.data := by
    simp [String.data_append]
  simp [stringsSplit, COLON_SEPARATED, hdata, splitChars_append _ _ _ ha,
    splitChars_of_not_mem _ _ hb]

/-- The destroy loop over well-formed attachment ids, from any list of lookups
already made. -/
theorem destroy_loop_spec {ε : Type} (env : EcsEnv ε) (rest : List (String × ResourceState)) :
    ∀ (expected acc : List (String × String)),
      List.Forall₂
        (fun (entry : String × ResourceState) (p : String × String) =>
          entry.2.Primary.ID = p.2 ++ ":" ++ p.1 ∧ ':' ∉ p.1.data ∧ ':' ∉ p.2.data)
        (rest.filter (fun entry => entry.2.Typ == "alicloud_disk_attachment")) expected →
      (∃ err, (testAccCheckDiskAttachmentDestroy.loop env rest acc).outcome = .returned err) ∧
      ((testAccCheckDiskAttachmentDestroy.loop env rest acc).outcome = .returned none ↔
        ∀ p ∈ expected, env.lookupPasses p = true) ∧
      (∃ made, (testAccCheckDiskAttachmentDestroy.loop env rest acc).lookups = acc ++ made ∧
        made <+: expected ∧
        ((testAccCheckDiskAttachmentDestroy.loop env rest acc).outcome = .returned none →
          made = expected)) := by
  induction rest with
  | nil =>
    intro expected acc h
    simp only [List.filter_nil, List.forall₂_nil_left_iff] at h
    subst h
    simp [testAccCheckDiskAttachmentDestroy.loop]
  | cons entry rest ih =>
    intro expected acc h
    obtain ⟨name, rs⟩ := entry
    by_cases ht : rs.Typ = "alicloud_disk_attachment"
    · simp only [List.filter_cons, ht, beq_self_eq_true, if_true] at h
      rcases List.forall₂_cons_left_iff.mp h with ⟨p, exp1, ⟨hid, hp1, hp2⟩, hrest, rfl⟩
      obtain ⟨inst, disk⟩ := p
      simp only at hid hp1 hp2
      have hsplit := stringsSplit_pair disk inst hp2 hp1
      obtain ⟨ih1, ih2, made, ih3, ih4, ih5⟩ := ih exp1 (acc ++ [(inst, disk)]) hrest
      simp only [testAccCheckDiskAttachmentDestroy.loop, ht, bne_self_eq_false,
        Bool.false_eq_true, if_false, hid, hsplit, List.getElem?_cons_succ,
        List.getElem?_cons_zero, List.forall_mem_cons, EcsEnv.lookupPasses]
      cases hd : env.DescribeDiskById inst disk with
      | error err =>
        by_cases hnf : env.NotFoundError err = true
        · simp only [hnf, if_true, true_and]
          refine ⟨ih1, ih2, (inst, disk) :: made, by rw [ih3]; simp, ?_, ?_⟩
          · exact (List.prefix_cons_inj _).mpr ih4
          · intro hnil; rw [ih5 hnil]
        · simp only [hnf, Bool.false_eq_true, if_false, false_and]
          refine ⟨⟨_, rfl⟩, by simp, [(inst, disk)], rfl, ?_, by simp⟩
          exact (List.prefix_cons_inj _).mpr (List.nil_prefix)
      | ok dsk =>
        by_cases hst : dsk.Status = env.Available
        · simp only [hst, bne_self_eq_false, Bool.false_eq_true, if_false, beq_self_eq_true,
            true_and]
          refine ⟨ih1, ih2, (inst, disk) :: made, by rw [ih3]; simp, ?_, ?_⟩
          · exact (List.prefix_cons_inj _).mpr ih4
          · intro hnil; rw [ih5 hnil]
        · have hb : (dsk.Status != env.Available) = true := by simpa using hst
          have hb2 : (dsk.Status == env.Available) = false := by simpa using hst
          simp only [hb, if_true, hb2, Bool.false_eq_true, false_and]
          refine ⟨⟨_, rfl⟩, by simp, [(inst, disk)], rfl, ?_, by simp⟩
          exact (List.prefix_cons_inj _).mpr (List.nil_prefix)
    · have hf : (rs.Typ == "alicloud_disk_attachment") = false := by simpa using ht
      have hb : (rs.Typ != "alicloud_disk_attachment") = true := by simpa using ht
      simp only [List.filter_cons, hf, Bool.false_eq_true, if_false] at h
      simp only [testAccCheckDiskAttachmentDestroy.loop, hb, if_true]
      exact ih expected acc h

/-- C6: let `expected` list, in visiting order, the pair `(instance-id, disk-id)`
of every resource of type `alicloud_disk_attachment`, each of which has the id
`<disk-id>:<instance-id>` with no separator inside either part. Then
`testAccCheckDiskAttachmentDestroy` returns (it does not panic); it returns nil
if and only if every lookup `DescribeDiskById(instance-id, disk-id)` fails with
a not-found error or gives a disk whose status is `Available`; a lookup that
does neither makes it return a non-nil error; and the lookups it makes are, in
order, an initial part of `expected` (all of it when it returns nil), so that
no resource of another type is looked up. -/
theorem destroy_check_nil_iff_all_gone {ε : Type} (env : EcsEnv ε) (s : State)
    (expected : List (String × String))
    (hform : List.Forall₂
      (fun (entry : String × ResourceState) (p : String × String) =>
        entry.2.Primary.ID = p.2 ++ ":" ++ p.1 ∧ ':' ∉ p.1.data ∧ ':' ∉ p.2.data)
      (s.Resources.filter (fun entry => entry.2.Typ == "alicloud_disk_attachment"))
      expected) :
    (∃ err, (testAccCheckDiskAttachmentDestroy env s).outcome = .returned err) ∧
      ((testAccCheckDiskAttachmentDestroy env s).outcome = .returned none ↔
        ∀ p ∈ expected, env.lookupPasses p = true) ∧
      ((∃ p ∈ expected, env.lookupPasses p = false) →
        ∃ msg, (testAccCheckDiskAttachmentDestroy env s).outcome = .returned (some msg)) ∧
      (testAccCheckDiskAttachmentDestroy env s).lookups <+: expected ∧
      ((testAccCheckDiskAttachmentDestroy env s).outcome = .returned none →
        (testAccCheckDiskAttachmentDestroy env s).lookups = expected) := by
  obtain ⟨h1, h2, made, h3, h4, h5⟩ := destroy_loop_spec env s.Resources expected [] hform
  simp only [List.nil_append] at h3
  unfold testAccCheckDiskAttachmentDestroy
  refine ⟨h1, h2, ?_, by rw [h3]; exact h4, fun hnil => by rw [h3]; exact h5 hnil⟩
  rintro ⟨p, hp, hfail⟩
  obtain ⟨err, herr⟩ := h1
  cases err with
  | some msg => exact ⟨msg, herr⟩
  | none =>
    have := h2.mp herr p hp
    rw [hfail] at this
    exact absurd this (by simp)

/-- C6 applied to a state with an instance and one attachment whose disk is
`Available`: the single lookup is `DescribeDiskById("i-bp2", "d-bp1")` and the
check returns nil. -/
theorem destroy_check_nil_iff_all_gone_witness :
    List.Forall₂
        (fun (entry : String × ResourceState) (p : String × String) =>
          entry.2.Primary.ID = p.2 ++ ":" ++ p.1 ∧ ':' ∉ p.1.data ∧ ':' ∉ p.2.data)
        (attachmentState.Resources.filter
          (fun entry => entry.2.Typ == "alicloud_disk_attachment"))
        [("i-bp2", "d-bp1")] ∧
      (testAccCheckDiskAttachmentDestroy (ecsWithStatus "Available") attachmentState).outcome
        = .returned none ∧
      (testAccCheckDiskAttachmentDestroy (ecsWithStatus "Available") attachmentState).lookups
        = [("i-bp2", "d-bp1")] :=
  have hform : List.Forall₂
      (fun (entry : String × ResourceState) (p : String × String) =>
        entry.2.Primary.ID = p.2 ++ ":" ++ p.1 ∧ ':' ∉ p.1.data ∧ ':' ∉ p.2.data)
      (attachmentState.Resources.filter
        (fun entry => entry.2.Typ == "alicloud_disk_attachment"))
      [("i-bp2", "d-bp1")] := by
    simp only [attachmentState, List.filter]
    exact List.Forall₂.cons ⟨by decide, by decide, by decide⟩ List.Forall₂.nil
  have h := destroy_check_nil_iff_all_gone (ecsWithStatus "Available") attachmentState
    [("i-bp2", "d-bp1")] hform
  have hnil := h.2.1.mpr (by decide)
  ⟨hform, hnil, h.2.2.2.2 hnil⟩

/-- C9: one poll attempt of `testAccCheckDiskAttachmentExists` ends in exactly one
of three ways. It returns nil if and only if the describe call succeeds with a
disk whose status is `DiskInUse`, and then the output holds that disk. It
returns a non-retryable error if and only if the describe call fails, and the
error carried is the describe error itself. It returns a retryable error if
and only if the describe call succeeds with a disk in another status. Unless
it returns nil the output is left as it was. -/
theorem exists_attempt_cases {ε : Type} (env : EcsEnv ε) (instanceId : String)
    (rs : ResourceState) (disk : Disk) :
    ((testAccCheckDiskAttachmentExists.attempt env instanceId rs disk).2 = none ↔
        ∃ d, env.DescribeDiskById instanceId
            ((rs.Primary.Attributes.lookup "disk_id").getD "") = .ok d ∧
          d.Status = env.DiskInUse) ∧
      (∀ d, env.DescribeDiskById instanceId
            ((rs.Primary.Attributes.lookup "disk_id").getD "") = .ok d →
          d.Status = env.DiskInUse →
          testAccCheckDiskAttachmentExists.attempt env instanceId rs disk = (d, none)) ∧
      ((∃ re, (testAccCheckDiskAttachmentExists.attempt env instanceId rs disk).2 = some re ∧
          re.Retryable = false) ↔
        ∃ err, env.DescribeDiskById instanceId
            ((rs.Primary.Attributes.lookup "disk_id").getD "") = .error err) ∧
      (∀ err, env.DescribeDiskById instanceId
            ((rs.Primary.Attributes.lookup "disk_id").getD "") = .error err →
          testAccCheckDiskAttachmentExists.attempt env instanceId rs disk =
            (disk, some { Err := .describe err, Retryable := false })) ∧
      ((∃ re, (testAccCheckDiskAttachmentExists.attempt env instanceId rs disk).2 = some re ∧
          re.Retryable = true) ↔
        ∃ d, env.DescribeDiskById instanceId
            ((rs.Primary.Attributes.lookup "disk_id").getD "") = .ok d ∧
          d.Status ≠ env.DiskInUse) ∧
      ((testAccCheckDiskAttachmentExists.attempt env instanceId rs disk).2 ≠ none →
        (testAccCheckDiskAttachmentExists.attempt env instanceId rs disk).1 = disk) := by
  unfold testAccCheckDiskAttachmentExists.attempt
  cases hq : env.DescribeDiskById instanceId
      ((rs.Primary.Attributes.lookup "disk_id").getD "") with
  | error err => simp [hq]
  | ok d =>
    by_cases hst : d.Status = env.DiskInUse
    · simp [hq, hst]
    · simp [hq, hst]

/-- C10, evaluated on an attachment `d-bp1:i-bp2` whose disk is still `In_use`:
`testAccCheckDiskAttachmentDestroy` returns the fixed message
`Error ECS Disk Attachment still exist`, which does not contain the composite
id; on the same state a lookup failing with another error gives a message
that does contain it. -/
theorem destroy_check_status_error_lacks_id :
    (testAccCheckDiskAttachmentDestroy (ecsWithStatus "In_use") attachmentState).outcome =
        .returned (some "Error ECS Disk Attachment still exist") ∧
      stringsContains "Error ECS Disk Attachment still exist" "d-bp1:i-bp2" = false ∧
      (testAccCheckDiskAttachmentDestroy (ecsFailing "ServiceUnavailable")
          attachmentState).outcome =
        .returned (some "Describing disk d-bp1:i-bp2 got an error.") ∧
      stringsContains "Describing disk d-bp1:i-bp2 got an error." "d-bp1:i-bp2" = true := by
  refine ⟨by decide, ?_, by decide, ?_⟩
  · simp only [stringsContains, decide_eq_false_iff_not]
    intro h
    have hmem : ':' ∈ "Error ECS Disk Attachment still exist".data :=
      h.subset (by decide)
    revert hmem
    decide
  · simp only [stringsContains, decide_eq_true_eq]
    exact ⟨"Describing disk ".data, " got an error.".data, by decide⟩

/-! ## OSS bucket checkers -/

/-- C7, evaluated on a lookup that fails with an error that is not an OSS service
error (the bucket `tf-testacc-down` cannot be reached):
`testAccCheckOssBucketExistsWithProviders` does not return that error, it
panics on reading `e.Code` through the nil result of the type assertion. -/
theorem exists_check_panics_on_foreign_error :
    (ossById.QueryOssBucketById 0 "tf-testacc-down").err =
        some (.other "dial tcp: i/o timeout") ∧
      (testAccCheckOssBucketExistsWithProviders ossById "alicloud_oss_bucket.basic"
          { Name := "", Location := "" } [{ Meta := some 0 }]
          (bucketState "tf-testacc-down")).outcome = .panicked := by
  constructor <;> decide

/-- C8, as stated, fails: a lookup that succeeds with a bucket whose name is
empty makes `testAccCheckOssBucketDestroyWithProvider` return nil. -/
theorem oss_destroy_check_nil_on_blank_name :
    (ossById.QueryOssBucketById 0 "tf-testacc-blank").err = none ∧
      (ossById.QueryOssBucketById 0 "tf-testacc-blank").bucket =
        some { Name := "", Location := "" } ∧
      testAccCheckOssBucketDestroyWithProvider ossById 0 (bucketState "tf-testacc-blank") =
        .returned none := by
  refine ⟨?_, ?_, ?_⟩ <;> decide

/-- A lookup that returns a nil error together with a nil bucket makes
`testAccCheckOssBucketDestroyWithProvider` panic on reading `bucket.Name`; the
existence check of the same file tests `bucket != nil` first. -/
theorem oss_destroy_check_panics_on_nil_bucket :
    testAccCheckOssBucketDestroyWithProvider ossVoid 0 (bucketState "tf-testacc-void") =
      .panicked := by
  decide

/-- The bucket destroy loop when every successful lookup of a bucket resource
gives a named bucket. -/
theorem oss_destroy_loop_spec {κ : Type} (env : OssEnv κ) (client : κ)
    (l : List (String × ResourceState))
    (hname : ∀ entry ∈ l, entry.2.Typ = "alicloud_oss_bucket" →
      (env.QueryOssBucketById client entry.2.Primary.ID).err = none →
      ∃ b, (env.QueryOssBucketById client entry.2.Primary.ID).bucket = some b ∧
        b.Name ≠ "") :
    (∃ r, testAccCheckOssBucketDestroyWithProvider.loop env client l = .returned r) ∧
      (testAccCheckOssBucketDestroyWithProvider.loop env client l = .returned none ↔
        ∀ entry ∈ l, entry.2.Typ = "alicloud_oss_bucket" →
          (env.QueryOssBucketById client entry.2.Primary.ID).err ≠ none ∧
          env.IsExceptedErrors (env.QueryOssBucketById client entry.2.Primary.ID).err
            [env.OssBucketNotFound] = true) := by
  induction l with
  | nil => simp [testAccCheckOssBucketDestroyWithProvider.loop]
  | cons entry rest ih =>
    obtain ⟨name, rs⟩ := entry
    have hrest := ih (fun entry hmem => hname entry (List.mem_cons_of_mem _ hmem))
    have hhead := hname (name, rs) (List.mem_cons_self _ _)
    simp only at hhead
    by_cases ht : rs.Typ = "alicloud_oss_bucket"
    · simp only [testAccCheckOssBucketDestroyWithProvider.loop, ht, bne_self_eq_false,
        Bool.false_eq_true, if_false, List.forall_mem_cons, forall_true_left]
      cases herr : (env.QueryOssBucketById client rs.Primary.ID).err with
      | none =>
        obtain ⟨b, hb1, hb2⟩ := hhead ht herr
        have hb3 : (b.Name != "") = true := by simpa using hb2
        simp [hb1, hb3]
      | some e =>
        by_cases hex : env.IsExceptedErrors (some e) [env.OssBucketNotFound] = true
        · simp only [hex, if_true, ne_eq, reduceCtorEq, not_false_eq_true, and_self, true_and]
          exact hrest
        · simp [hex]
    · have hb : (rs.Typ != "alicloud_oss_bucket") = true := by simpa using ht
      simp only [testAccCheckOssBucketDestroyWithProvider.loop, hb, if_true,
        List.forall_mem_cons, ht, false_implies, true_and]
      exact hrest

/-- C8, amended: provided every lookup of an `alicloud_oss_bucket` resource that
returns a nil error also returns a non-nil bucket whose `Name` is not empty,
`testAccCheckOssBucketDestroyWithProvider` returns a non-nil error whenever the
lookup of at least one such resource returns a nil error, in whatever order
`visited` the resources of the state are gone through, and it returns nil only
when the lookup of every such resource fails with an error that
`IsExceptedErrors` accepts for the code `OssBucketNotFound`. -/
theorem oss_destroy_check_named_buckets {κ : Type} (env : OssEnv κ) (client : κ)
    (s visited : State) (hperm : visited.Resources.Perm s.Resources)
    (hname : ∀ entry ∈ s.Resources, entry.2.Typ = "alicloud_oss_bucket" →
      (env.QueryOssBucketById client entry.2.Primary.ID).err = none →
      ∃ b, (env.QueryOssBucketById client entry.2.Primary.ID).bucket = some b ∧
        b.Name ≠ "") :
    ((∃ entry ∈ s.Resources, entry.2.Typ = "alicloud_oss_bucket" ∧
          (env.QueryOssBucketById client entry.2.Primary.ID).err = none) →
        ∃ e, testAccCheckOssBucketDestroyWithProvider env client visited =
          .returned (some e)) ∧
      (testAccCheckOssBucketDestroyWithProvider env client visited = .returned none →
        ∀ entry ∈ s.Resources, entry.2.Typ = "alicloud_oss_bucket" →
          (env.QueryOssBucketById client entry.2.Primary.ID).err ≠ none ∧
          env.IsExceptedErrors (env.QueryOssBucketById client entry.2.Primary.ID).err
            [env.OssBucketNotFound] = true) := by
  obtain ⟨⟨r, hr⟩, hiff⟩ := oss_destroy_loop_spec env client visited.Resources
    (fun entry hmem => hname entry (hperm.mem_iff.mp hmem))
  unfold testAccCheckOssBucketDestroyWithProvider
  constructor
  · rintro ⟨entry, hmem, htyp, herr⟩
    cases r with
    | some e => exact ⟨e, hr⟩
    | none =>
      have := (hiff.mp hr entry (hperm.mem_iff.mpr hmem) htyp).1
      exact absurd herr this
  · intro hnil entry hmem
    exact hiff.mp hnil entry (hperm.mem_iff.mpr hmem)

/-- C8, amended, applied to a state with a bucket that is gone and a bucket that
still exists, visited in reverse order: every lookup with a nil error gives a
named bucket, and the check returns a non-nil error. -/
theorem oss_destroy_check_named_buckets_witness :
    twoBucketState.Resources.reverse.Perm twoBucketState.Resources ∧
      (∀ entry ∈ twoBucketState.Resources, entry.2.Typ = "alicloud_oss_bucket" →
        (ossById.QueryOssBucketById 0 entry.2.Primary.ID).err = none →
        ∃ b, (ossById.QueryOssBucketById 0 entry.2.Primary.ID).bucket = some b ∧
          b.Name ≠ "") ∧
      ∃ e, testAccCheckOssBucketDestroyWithProvider ossById 0
        { Resources := twoBucketState.Resources.reverse } = .returned (some e) :=
  have hname : ∀ entry ∈ twoBucketState.Resources, entry.2.Typ = "alicloud_oss_bucket" →
      (ossById.QueryOssBucketById 0 entry.2.Primary.ID).err = none →
      ∃ b, (ossById.QueryOssBucketById 0 entry.2.Primary.ID).bucket = some b ∧
        b.Name ≠ "" := by
    intro entry hmem htyp herr
    simp only [twoBucketState, List.mem_cons, List.mem_singleton, List.not_mem_nil,
      or_false] at hmem
    rcases hmem with rfl | rfl
    · exact absurd herr (by decide)
    · exact ⟨{ Name := "tf-testacc-basic", Location := "oss-cn-beijing" }, by decide,
        by decide⟩
  ⟨List.reverse_perm _, hname,
    (oss_destroy_check_named_buckets ossById 0 twoBucketState
      { Resources := twoBucketState.Resources.reverse } (List.reverse_perm _) hname).1
      ⟨("alicloud_oss_bucket.basic",
          { Typ := "alicloud_oss_bucket"
            Primary := { ID := "tf-testacc-basic", Attributes := [] } }),
        by simp [twoBucketState], by decide, by decide⟩⟩

end Alicloud

namespace Alicloud

/-! ## Bounds of the identifier split -/

/-- A list that holds the separator splits into at least two pieces. -/
theorem splitChars_of_mem (sep : Char) (l : List Char) (h : sep ∈ l) :
    ∃ a b t, splitChars sep l = a :: b :: t := by
  induction l with
  | nil => simp at h
  | cons c cs ih =>
    by_cases hc : c = sep
    · cases hcs : splitChars sep cs with
      | nil => exact absurd hcs (splitChars_ne_nil sep cs)
      | cons b t => exact ⟨[], b, t, by simp [splitChars, hc, hcs]⟩
    · have hmem : sep ∈ cs := by
        rcases List.mem_cons.mp h with h1 | h1
        · exact absurd h1.symm hc
        · exact h1
      obtain ⟨a, b, t, hab⟩ := ih hmem
      exact ⟨c :: a, b, t, by simp [splitChars, hc, hab]⟩

/-- The destroy loop only adds to the lookups already made. -/
theorem destroy_loop_lookups_prefix {ε : Type} (env : EcsEnv ε)
    (rest : List (String × ResourceState)) :
    ∀ acc, acc <+: (testAccCheckDiskAttachmentDestroy.loop env rest acc).lookups := by
  induction rest with
  | nil => intro acc; simp [testAccCheckDiskAttachmentDestroy.loop]
  | cons entry rest ih =>
    intro acc
    obtain ⟨name, rs⟩ := entry
    have hstep : ∀ x, acc <+:
        (testAccCheckDiskAttachmentDestroy.loop env rest (acc ++ [x])).lookups :=
      fun x => (List.prefix_append acc [x]).trans (ih (acc ++ [x]))
    simp only [testAccCheckDiskAttachmentDestroy.loop]
    split
    · exact ih acc
    · split
      · split
        · split
          · exact hstep _
          · exact List.prefix_append _ _
        · split
          · exact List.prefix_append _ _
          · exact hstep _
      · exact List.prefix_refl _

/-- Visiting an attachment whose id has no separator panics. -/
theorem destroy_loop_bare_id {ε : Type} (env : EcsEnv ε) (name : String)
    (rs : ResourceState) (rest : List (String × ResourceState))
    (acc : List (String × String)) (htyp : rs.Typ = "alicloud_disk_attachment")
    (hbare : COLON_SEPARATED ∉ rs.Primary.ID.data) :
    testAccCheckDiskAttachmentDestroy.loop env ((name, rs) :: rest) acc =
      { outcome := .panicked, lookups := acc } := by
  have hsplit : stringsSplit rs.Primary.ID COLON_SEPARATED = [rs.Primary.ID] := by
    simp [stringsSplit, splitChars_of_not_mem _ _ hbare]
  simp [testAccCheckDiskAttachmentDestroy.loop, htyp, hsplit]

/-- A state holding an attachment whose id has no separator never passes the
destroy check. -/
theorem destroy_loop_bare_id_not_nil {ε : Type} (env : EcsEnv ε) (name : String)
    (rs : ResourceState) (rest : List (String × ResourceState))
    (htyp : rs.Typ = "alicloud_disk_attachment")
    (hbare : COLON_SEPARATED ∉ rs.Primary.ID.data)
    (pre : List (String × ResourceState)) :
    ∀ acc, (testAccCheckDiskAttachmentDestroy.loop env (pre ++ (name, rs) :: rest)
      acc).outcome ≠ .returned none := by
  induction pre with
  | nil =>
    intro acc
    simp [destroy_loop_bare_id env name rs rest acc htyp hbare]
  | cons entry pre ih =>
    intro acc
    obtain ⟨n1, r1⟩ := entry
    simp only [List.cons_append, testAccCheckDiskAttachmentDestroy.loop]
    split
    · exact ih acc
    · split
      · split
        · split
          · exact ih _
          · simp
        · split
          · simp
          · exact ih _
      · simp

/-- C12: for a resource of type `alicloud_disk_attachment` visited by
`testAccCheckDiskAttachmentDestroy`: when its id holds a separator, `split[0]`
and `split[1]` are both in bounds and the lookup `DescribeDiskById(split[1],
split[0])` is made; when its id holds no separator (the empty id included),
`split` is the single piece `[id]`, `split[1]` is out of bounds and the visit
panics with no lookup made, so that a state holding such a resource never makes
the checker return nil, wherever the resource stands in the visiting order. -/
theorem destroy_check_split_bounds {ε : Type} (env : EcsEnv ε) (name : String)
    (rs : ResourceState) (rest : List (String × ResourceState))
    (acc : List (String × String)) (htyp : rs.Typ = "alicloud_disk_attachment") :
    (COLON_SEPARATED ∈ rs.Primary.ID.data →
      ∃ diskId instanceId,
        (stringsSplit rs.Primary.ID COLON_SEPARATED)[0]? = some diskId ∧
        (stringsSplit rs.Primary.ID COLON_SEPARATED)[1]? = some instanceId ∧
        acc ++ [(instanceId, diskId)] <+:
          (testAccCheckDiskAttachmentDestroy.loop env ((name, rs) :: rest) acc).lookups) ∧
    (COLON_SEPARATED ∉ rs.Primary.ID.data →
      (stringsSplit rs.Primary.ID COLON_SEPARATED)[0]? = some rs.Primary.ID ∧
      (stringsSplit rs.Primary.ID COLON_SEPARATED)[1]? = none ∧
      testAccCheckDiskAttachmentDestroy.loop env ((name, rs) :: rest) acc =
        { outcome := .panicked, lookups := acc } ∧
      ∀ pre, (testAccCheckDiskAttachmentDestroy env
          { Resources := pre ++ (name, rs) :: rest }).outcome ≠ .returned none) := by
  constructor
  · intro hsep
    obtain ⟨a, b, t, hab⟩ := splitChars_of_mem _ _ hsep
    have hsplit : stringsSplit rs.Primary.ID COLON_SEPARATED =
        String.mk a :: String.mk b :: t.map String.mk := by
      simp [stringsSplit, hab]
    refine ⟨String.mk a, String.mk b, by simp [hsplit], by simp [hsplit], ?_⟩
    have hstep := destroy_loop_lookups_prefix env rest (acc ++ [(String.mk b, String.mk a)])
    simp only [testAccCheckDiskAttachmentDestroy.loop, htyp, bne_self_eq_false,
      Bool.false_eq_true, if_false, hsplit, List.getElem?_cons_succ,
      List.getElem?_cons_zero]
    split
    · split
      · exact hstep
      · exact List.prefix_refl _
    · split
      · exact List.prefix_refl _
      · exact hstep
  · intro hbare
    have hsplit : stringsSplit rs.Primary.ID COLON_SEPARATED = [rs.Primary.ID] := by
      simp [stringsSplit, splitChars_of_not_mem _ _ hbare]
    refine ⟨by simp [hsplit], by simp [hsplit],
      destroy_loop_bare_id env name rs rest acc htyp hbare, ?_⟩
    intro pre
    exact destroy_loop_bare_id_not_nil env name rs rest htyp hbare pre []

/-- C12 applied to an attachment with the id `d-bp1`: the id holds no separator,
`split[1]` is out of bounds and the checker panics. -/
theorem destroy_check_split_bounds_witness :
    COLON_SEPARATED ∉ "d-bp1".data ∧
      (stringsSplit "d-bp1" COLON_SEPARATED)[1]? = none ∧
      (testAccCheckDiskAttachmentDestroy (ecsWithStatus "Available") bareIdState).outcome =
        .panicked :=
  have hbare : COLON_SEPARATED ∉ "d-bp1".data := by decide
  have h := (destroy_check_split_bounds (ecsWithStatus "Available")
    "alicloud_disk_attachment.disk-att"
    { Typ := "alicloud_disk_attachment"
      Primary := { ID := "d-bp1", Attributes := [("disk_id", "d-bp1")] } } [] [] rfl).2 hbare
  ⟨hbare, h.2.1, by
    have h3 := h.2.2.1
    simp only [testAccCheckDiskAttachmentDestroy, bareIdState]
    rw [h3]⟩

end Alicloud

namespace Alicloud

/-! ## OSS bucket sweeper -/

/-- The inner loop leaves `skip` set exactly when no listed beginning matches. -/
theorem sweep_skip_eq {σ : Type} (env : SweepEnv σ) (name : String) (l : List String) :
    testSweepOSSBuckets.skip env name l =
      !(l.any (fun pfx => stringsHasPrefix (env.ToLower name) (env.ToLower pfx))) := by
  induction l with
  | nil => simp [testSweepOSSBuckets.skip]
  | cons pfx rest ih =>
    by_cases h : stringsHasPrefix (env.ToLower name) (env.ToLower pfx) = true
    · simp [testSweepOSSBuckets.skip, h]
    · simp [testSweepOSSBuckets.skip, h, ih]

/-- A bucket is skipped exactly when it does not match. -/
theorem sweep_skip_matches {σ : Type} (env : SweepEnv σ) (name : String) :
    testSweepOSSBuckets.skip env name testSweepOSSBuckets.sweepPrefixes =
      !env.matchesSweep name := by
  rw [sweep_skip_eq]
  rfl

/-- The object loop issues one `DeleteObject` per object, all on the same
bucket. -/
theorem sweep_deleteObjects_trace {σ : Type} (env : SweepEnv σ) (name : String)
    (objects : List ObjectProperties) :
    ∀ st, (testSweepOSSBuckets.deleteObjects env name objects st).2 =
      objects.map (fun o => SweepCall.deleteObject name o.Key) := by
  induction objects with
  | nil => intro st; rfl
  | cons o rest ih =>
    intro st
    simp [testSweepOSSBuckets.deleteObjects, ih]

/-- The bucket-delete requests of a concatenated trace. -/
theorem deletedBuckets_append (a b : List SweepCall) :
    deletedBuckets (a ++ b) = deletedBuckets a ++ deletedBuckets b := by
  induction a with
  | nil => rfl
  | cons c rest ih => cases c <;> simp [deletedBuckets, ih]

/-- Object deletions hold no bucket-delete request. -/
theorem deletedBuckets_deleteObjects (name : String) (objects : List ObjectProperties) :
    deletedBuckets (objects.map (fun o => SweepCall.deleteObject name o.Key)) = [] := by
  induction objects with
  | nil => rfl
  | cons o rest ih => simp [deletedBuckets, ih]

/-- The calls made for the objects of one bucket, whatever `ListObjects`
answered: object deletions on that bucket. -/
theorem sweep_clearObjects_trace {σ : Type} (env : SweepEnv σ) (name : String) (st : σ) :
    ∃ objects : List ObjectProperties,
      (testSweepOSSBuckets.clearObjects env name st).2 =
        objects.map (fun o => SweepCall.deleteObject name o.Key) := by
  unfold testSweepOSSBuckets.clearObjects
  rcases h : env.ListObjects st name with ⟨ans, st2⟩
  cases ans with
  | error e => exact ⟨[], by simp⟩
  | ok objects =>
    by_cases hlen : objects.length > 0
    · exact ⟨objects, by simp [hlen, sweep_deleteObjects_trace]⟩
    · exact ⟨[], by simp [hlen]⟩

/-- The calls made for one swept bucket are all about that bucket. -/
theorem sweep_block_target (name : String) (objects : List ObjectProperties)
    (c : SweepCall)
    (hc : c ∈ [SweepCall.bucket name true, SweepCall.listObjects name] ++
      objects.map (fun o => SweepCall.deleteObject name o.Key) ++
      [SweepCall.deleteBucket name]) :
    c.target = some name := by
  simp only [List.mem_append, List.mem_cons, List.mem_singleton, List.mem_map,
    List.not_mem_nil, or_false] at hc
  rcases hc with ((rfl | rfl) | ⟨o, _, rfl⟩) | rfl <;> rfl

/-- The bucket loop of the sweeper: every call names a matching bucket of the
list, and a run without failed handle lookup ends without error after one
bucket-delete request per matching bucket, in list order. -/
theorem sweep_loop_spec {σ : Type} (env : SweepEnv σ) (bs : List BucketProperties) :
    ∀ (st : σ) (sweeped : Bool),
      (∀ c ∈ (testSweepOSSBuckets.loop env bs st sweeped).trace, ∀ n,
        c.target = some n →
          n ∈ bs.map (fun v => v.Name) ∧ env.matchesSweep n = true) ∧
      ((∀ n, SweepCall.bucket n false ∉ (testSweepOSSBuckets.loop env bs st sweeped).trace) →
        (testSweepOSSBuckets.loop env bs st sweeped).err = none ∧
        deletedBuckets (testSweepOSSBuckets.loop env bs st sweeped).trace =
          (bs.map (fun v => v.Name)).filter env.matchesSweep) := by
  induction bs with
  | nil => intro st sweeped; simp [testSweepOSSBuckets.loop, deletedBuckets]
  | cons v rest ih =>
    intro st sweeped
    by_cases hm : env.matchesSweep v.Name = true
    · have hskip : testSweepOSSBuckets.skip env v.Name testSweepOSSBuckets.sweepPrefixes
          = false := by rw [sweep_skip_matches, hm]; rfl
      rcases hb : env.Bucket st v.Name with ⟨ans, st1⟩
      cases ans with
      | error e =>
        simp only [testSweepOSSBuckets.loop, hskip, hb, Bool.false_eq_true, if_false]
        constructor
        · intro c hc n hn
          simp only [List.mem_singleton] at hc
          subst hc
          simp only [SweepCall.target, Option.some.injEq] at hn
          subst hn
          exact ⟨by simp, hm⟩
        · intro hno
          exact absurd (List.mem_singleton.mpr rfl) (hno v.Name)
      | ok u =>
        obtain ⟨objects, hobj⟩ := sweep_clearObjects_trace env v.Name st1
        obtain ⟨ih1, ih2⟩ := ih
          (env.DeleteBucket (testSweepOSSBuckets.clearObjects env v.Name st1).1 v.Name).2 true
        simp only [testSweepOSSBuckets.loop, hskip, hb, Bool.false_eq_true, if_false, hobj]
        constructor
        · intro c hc n hn
          rcases List.mem_append.mp hc with hc | hc
          · have ht := sweep_block_target v.Name objects c hc
            rw [ht] at hn
            simp only [Option.some.injEq] at hn
            subst hn; exact ⟨by simp, hm⟩
          · obtain ⟨h1, h2⟩ := ih1 c hc n hn
            exact ⟨by simp only [List.map_cons, List.mem_cons]; exact Or.inr h1, h2⟩
        · intro hno
          have hno2 : ∀ n, SweepCall.bucket n false ∉ (testSweepOSSBuckets.loop env rest
              (env.DeleteBucket (testSweepOSSBuckets.clearObjects env v.Name st1).1
                v.Name).2 true).trace := by
            intro n hmem
            exact hno n (List.mem_append_right _ hmem)
          obtain ⟨h1, h2⟩ := ih2 hno2
          refine ⟨h1, ?_⟩
          have hA : deletedBuckets
              [SweepCall.bucket v.Name true, SweepCall.listObjects v.Name] = [] := rfl
          have hC : deletedBuckets [SweepCall.deleteBucket v.Name] = [v.Name] := rfl
          simp only [deletedBuckets_append, deletedBuckets_deleteObjects, hA, hC,
            h2, List.map_cons, List.filter_cons, hm, if_true, List.nil_append,
            List.append_nil, List.singleton_append]
    · have hmf : env.matchesSweep v.Name = false := by simpa using hm
      have hskip : testSweepOSSBuckets.skip env v.Name testSweepOSSBuckets.sweepPrefixes
          = true := by rw [sweep_skip_matches, hmf]; rfl
      obtain ⟨ih1, ih2⟩ := ih st sweeped
      simp only [testSweepOSSBuckets.loop, hskip, if_true]
      constructor
      · intro c hc n hn
        obtain ⟨h1, h2⟩ := ih1 c hc n hn
        exact ⟨by simp only [List.map_cons, List.mem_cons]; exact Or.inr h1, h2⟩
      · intro hno
        obtain ⟨h1, h2⟩ := ih2 hno
        refine ⟨h1, ?_⟩
        rw [h2]
        simp [List.filter_cons, hmf]

/-- C11: for every bucket list the vendor returns, every call of
`testSweepOSSBuckets` that is about a bucket (handle lookup, object listing,
object deletion, bucket deletion) names a bucket of the list whose lower-cased
name starts with one of the six lower-cased name beginnings, so a bucket
matching none is not touched; and when no handle lookup of the run fails, the
sweep returns nil and its bucket-delete requests are exactly the matching
buckets, once each and in list order, whatever the object and bucket deletions
answer. -/
theorem sweep_only_matching_buckets {σ : Type} (env : SweepEnv σ) (region : String)
    (client : σ) (buckets : List BucketProperties) (st : σ)
    (hclient : env.sharedClientForRegion region = .ok client)
    (hlist : env.ListBuckets client = (.ok buckets, st)) :
    (∀ n, env.matchesSweep n = true ↔
      ∃ pfx ∈ ["tf-testacc", "tf-test-", "test-bucket-", "tf-oss-test-",
          "tf-object-test-", "test-acc-alicloud-"],
        (env.ToLower pfx).data <+: (env.ToLower n).data) ∧
    (∀ c ∈ (testSweepOSSBuckets env region).trace, ∀ n, c.target = some n →
      n ∈ buckets.map (fun v => v.Name) ∧ env.matchesSweep n = true) ∧
    ((∀ n, SweepCall.bucket n false ∉ (testSweepOSSBuckets env region).trace) →
      (testSweepOSSBuckets env region).err = none ∧
      deletedBuckets (testSweepOSSBuckets env region).trace =
        (buckets.map (fun v => v.Name)).filter env.matchesSweep) := by
  obtain ⟨h1, h2⟩ := sweep_loop_spec env buckets st false
  refine ⟨?_, ?_, ?_⟩
  · intro n
    simp only [SweepEnv.matchesSweep, testSweepOSSBuckets.sweepPrefixes, List.any_eq_true,
      stringsHasPrefix, List.isPrefixOf_iff_prefix]
  · intro c hc n hn
    simp only [testSweepOSSBuckets, hclient, hlist] at hc
    have hmem : c = SweepCall.listBuckets ∨
        c ∈ (testSweepOSSBuckets.loop env buckets st false).trace ∨
        c = SweepCall.sleep 5 := by
      split at hc
      · simp only [List.mem_cons] at hc
        rcases hc with hc | hc
        · exact Or.inl hc
        · exact Or.inr (Or.inl hc)
      · split at hc
        · simp only [List.cons_append, List.mem_cons, List.mem_append,
            List.not_mem_nil, or_false] at hc
          rcases hc with hc | hc | hc
          · exact Or.inl hc
          · exact Or.inr (Or.inl hc)
          · exact Or.inr (Or.inr hc)
        · simp only [List.mem_cons] at hc
          rcases hc with hc | hc
          · exact Or.inl hc
          · exact Or.inr (Or.inl hc)
    rcases hmem with rfl | hmem | rfl
    · simp [SweepCall.target] at hn
    · exact h1 c hmem n hn
    · simp [SweepCall.target] at hn
  · intro hno
    simp only [testSweepOSSBuckets, hclient, hlist] at hno ⊢
    have hloop : ∀ n, SweepCall.bucket n false ∉
        (testSweepOSSBuckets.loop env buckets st false).trace := by
      intro n hmem
      apply hno n
      split
      · exact List.mem_cons_of_mem _ hmem
      · split
        · exact List.mem_cons_of_mem _ (List.mem_append_left _ hmem)
        · exact List.mem_cons_of_mem _ hmem
    obtain ⟨herr, hdel⟩ := h2 hloop
    have hsleep : deletedBuckets [SweepCall.sleep 5] = [] := rfl
    simp only [herr]
    split <;>
      simp [deletedBuckets, deletedBuckets_append, hsleep, hdel]

/-- C11 applied to an account with two test leftovers and one other bucket, in
which every object and bucket deletion fails: no handle lookup fails, the sweep
returns nil and asks to delete the two leftovers, in list order. -/
theorem sweep_only_matching_buckets_witness :
    sweepAccount.sharedClientForRegion "cn-beijing" = .ok () ∧
      sweepAccount.ListBuckets () =
        (.ok [{ Name := "tf-testacc-bucket-basic-1", Location := "oss-cn-beijing" },
              { Name := "production-data", Location := "oss-cn-beijing" },
              { Name := "TF-Test-upper", Location := "oss-cn-beijing" }], ()) ∧
      (sweepAccount.DeleteBucket () "tf-testacc-bucket-basic-1").1 = some "BucketNotEmpty" ∧
      (∀ n, SweepCall.bucket n false ∉ (testSweepOSSBuckets sweepAccount "cn-beijing").trace) ∧
      (testSweepOSSBuckets sweepAccount "cn-beijing").err = none ∧
      deletedBuckets (testSweepOSSBuckets sweepAccount "cn-beijing").trace =
        ["tf-testacc-bucket-basic-1", "TF-Test-upper"] :=
  have htrace : (testSweepOSSBuckets sweepAccount "cn-beijing").trace =
      [.listBuckets,
       .bucket "tf-testacc-bucket-basic-1" true,
       .listObjects "tf-testacc-bucket-basic-1",
       .deleteObject "tf-testacc-bucket-basic-1" "data.bin",
       .deleteBucket "tf-testacc-bucket-basic-1",
       .bucket "TF-Test-upper" true,
       .listObjects "TF-Test-upper",
       .deleteObject "TF-Test-upper" "data.bin",
       .deleteBucket "TF-Test-upper",
       .sleep 5] := by decide
  have hno : ∀ n, SweepCall.bucket n false ∉
      (testSweepOSSBuckets sweepAccount "cn-beijing").trace := by
    intro n hmem
    rw [htrace] at hmem
    simp at hmem
  have h := (sweep_only_matching_buckets sweepAccount "cn-beijing" ()
    [{ Name := "tf-testacc-bucket-basic-1", Location := "oss-cn-beijing" },
     { Name := "production-data", Location := "oss-cn-beijing" },
     { Name := "TF-Test-upper", Location := "oss-cn-beijing" }] () rfl rfl).2.2 hno
  ⟨rfl, rfl, rfl, hno, h.1, by rw [htrace]; rfl⟩

end Alicloud
